import Mathlib

/-!
Verification of the REAR ranking/generation loss core
(src/rear/src/modeling_rankllama.py) against its specification.

Scalars are modelled exactly, as rationals; the IEEE special values that the
code manipulates explicitly (infinite sentinel labels via torch.isinf, NaN
produced by inf - inf and by mean reduction over zero elements) are modelled
by the type PFloat below.  The external binary_cross_entropy_with_logits /
CrossEntropyLoss elementwise kernels, the backbone, the lm_head projection
and the learned weights are external collaborators of this core and are
taken as parameters; the reductions (mean, sum), masking, gathering, mode
dispatch and arithmetic around them are translated from the source.
-/

/-- Model of a PyTorch floating-point scalar: a finite rational, one of the
two infinities, or NaN. -/
inductive PFloat where
  | fin (q : ℚ)
  | pinf
  | ninf
  | nan
deriving DecidableEq, Repr

/-- IEEE subtraction on PFloat: finite arithmetic is exact, inf - inf and
anything involving NaN is NaN, otherwise the infinite operand wins. -/
def PFloat.sub : PFloat → PFloat → PFloat
  | .fin a, .fin b => .fin (a - b)
  | .fin _, .pinf => .ninf
  | .fin _, .ninf => .pinf
  | .pinf, .fin _ => .pinf
  | .pinf, .ninf => .pinf
  | .pinf, .pinf => .nan
  | .ninf, .fin _ => .ninf
  | .ninf, .pinf => .ninf
  | .ninf, .ninf => .nan
  | .nan, _ => .nan
  | _, .nan => .nan

/-- IEEE addition on PFloat (used for combining loss terms): NaN propagates,
same-sign infinities keep their sign, opposite infinities give NaN. -/
def PFloat.add (x y : PFloat) : PFloat :=
  match x with
  | .nan => .nan
  | .fin a =>
    match y with
    | .nan => .nan
    | .fin b => .fin (a + b)
    | .pinf => .pinf
    | .ninf => .ninf
  | .pinf =>
    match y with
    | .nan => .nan
    | .fin _ => .pinf
    | .pinf => .pinf
    | .ninf => .nan
  | .ninf =>
    match y with
    | .nan => .nan
    | .fin _ => .ninf
    | .ninf => .ninf
    | .pinf => .nan

/-- Multiplication of a PFloat by a finite scalar c, following IEEE:
c * (±inf) keeps or flips the sign for c ≠ 0 and is NaN for c = 0. -/
def PFloat.smul (c : ℚ) : PFloat → PFloat
  | .fin a => .fin (c * a)
  | .pinf => if 0 < c then .pinf else if c < 0 then .ninf else .nan
  | .ninf => if 0 < c then .ninf else if c < 0 then .pinf else .nan
  | .nan => .nan

/-- IEEE comparison x > t for a finite threshold t: true for +inf, false for
-inf and NaN. -/
def PFloat.gtQ (x : PFloat) (t : ℚ) : Bool :=
  match x with
  | .fin a => decide (t < a)
  | .pinf => true
  | .ninf => false
  | .nan => false

/-- IEEE comparison x ≥ t for a finite threshold t: true for +inf, false for
-inf and NaN. -/
def PFloat.geQ (x : PFloat) (t : ℚ) : Bool :=
  match x with
  | .fin a => decide (t ≤ a)
  | .pinf => true
  | .ninf => false
  | .nan => false

/-- Model of torch.isinf: true exactly on the two infinities. -/
def PFloat.isinf : PFloat → Bool
  | .pinf => true
  | .ninf => true
  | _ => false

/-- Fuel-driven worker for view2; the fuel is the length of the list, which
bounds the number of produced rows. -/
def chunksF {α : Type} : ℕ → ℕ → List α → List (List α)
  | 0, _, _ => []
  | _ + 1, _, [] => []
  | f + 1, n, l => l.take n :: chunksF f n (l.drop n)

/-- Model of the reshape tensor.view(-1, n): cut a flat batch into
consecutive rows of length n (row-major, exact when n divides the length). -/
def view2 {α : Type} (n : ℕ) (l : List α) : List (List α) :=
  chunksF l.length n l

/-- Model of list(itertools.product(range(n), repeat=2)): all ordered index
pairs over a group, self-pairs included, in lexicographic order. -/
def pairIdx (n : ℕ) : List (ℕ × ℕ) :=
  (List.range n).flatMap (fun i => (List.range n).map (fun j => (i, j)))

/-- Boolean-mask selection x[mask] on a flat tensor: keep the entries whose
mask bit is true, in order. -/
def maskSelect {α : Type} (xs : List α) (mask : List Bool) : List α :=
  ((xs.zip mask).filter (fun p => p.2)).map (fun p => p.1)

/-- Boolean-mask selection x[mask] on a two-dimensional tensor with a mask of
the same shape: row-major flattening of both, then flat selection. -/
def maskSelect2 {α : Type} (xs : List (List α)) (mask : List (List Bool)) : List α :=
  maskSelect xs.flatten mask.flatten

/-- Mean-reduced binary cross entropy with logits over a flat batch, given
the external elementwise kernel bce: the sum of the elementwise losses
divided by the element count; the mean over zero elements is NaN, as in
torch. -/
def bceMean (bce : ℚ → ℚ → ℚ) (xs ys : List ℚ) : PFloat :=
  if xs.length = 0 then .nan
  else .fin ((List.zipWith bce xs ys).sum / (xs.length : ℚ))

/-- Sum-reduced binary cross entropy with logits over a flat batch against a
constant target, given the external elementwise kernel bce. -/
def bceSum (bce : ℚ → ℚ → ℚ) (xs : List ℚ) (target : ℚ) : ℚ :=
  (xs.map (fun s => bce s target)).sum

/-- Bias-free linear functional: the dot product of a weight row with a
hidden-state vector (nn.Linear(hidden_size, 1, bias=False)). -/
def dot (w h : List ℚ) : ℚ :=
  (List.zipWith (fun a b => a * b) w h).sum

/-- State of LossForRank after a successful construction
(modeling_rankllama.py lines 20-38): the four numeric parameters.  The
compute_loss member is the external elementwise kernel, passed to the
methods below as the bce argument. -/
structure LossForRank where
  bias : ℚ
  psg_num : ℕ
  ignore_minor_diff : ℚ
  bce_bias : ℚ
deriving DecidableEq, Repr

/-- Model of LossForRank.__init__ (lines 22-38).  With is_warm_up = True the
constructor executes self.loss_fn = self.bce, but the class defines no
attribute or method named bce (its methods are __init__, __call__, bi, fine,
coarse), so the lookup raises AttributeError and no engine is produced:
modelled as none.  With is_warm_up = False it binds self.loss_fn = self.bi
and construction succeeds. -/
def LossForRank.make (is_warm_up : Bool) (bias : ℚ) (psg_num : ℕ)
    (ignore_minor_diff : ℚ) (bce_bias : ℚ) : Option LossForRank :=
  if is_warm_up then none
  else some { bias := bias, psg_num := psg_num,
              ignore_minor_diff := ignore_minor_diff, bce_bias := bce_bias }

/-- Body of LossForRank.fine (lines 46-64), with the candidate-pair list as a
parameter; in the source the list is always pairIdx psg_num (line 51), see
LossForRank.fine below.  Scores are finite model outputs; labels may carry
the infinite no-signal sentinel, hence PFloat. -/
def LossForRank.fineWith (e : LossForRank) (bce : ℚ → ℚ → ℚ)
    (cand : List (ℕ × ℕ)) (scores : List ℚ) (labels : List PFloat) : PFloat :=
  let y_pred := view2 e.psg_num scores
  let y_true := view2 e.psg_num labels
  let pairs_true := y_true.map (fun row => cand.map (fun p => (row.getD p.1 .nan, row.getD p.2 .nan)))
  let selected_pred := y_pred.map (fun row => cand.map (fun p => (row.getD p.1 0, row.getD p.2 0)))
  let true_diffs := pairs_true.map (fun row => row.map (fun q => q.1.sub q.2))
  let pred_diffs0 := selected_pred.map (fun row => row.map (fun q => q.1 - q.2))
  let the_mask := true_diffs.map (fun row => row.map (fun d => d.gtQ e.ignore_minor_diff && !d.isinf))
  let pred_diffs := maskSelect2 pred_diffs0 the_mask
  let true_kept := maskSelect2 true_diffs the_mask
  let targets := true_kept.map (fun d => if d.gtQ 0 then (1 : ℚ) else 0)
  bceMean bce pred_diffs targets

/-- LossForRank.fine (lines 46-64): the pairwise ranking term. -/
def LossForRank.fine (e : LossForRank) (bce : ℚ → ℚ → ℚ)
    (scores : List ℚ) (labels : List PFloat) : PFloat :=
  e.fineWith bce (pairIdx e.psg_num) scores labels

/-- LossForRank.coarse (lines 66-76): the pointwise classification term.
The two empty-subset guards mirror the source; the final division is by the
batch size and yields NaN for an empty batch, as 0-dim-tensor / 0 does in
torch. -/
def LossForRank.coarse (e : LossForRank) (bce : ℚ → ℚ → ℚ)
    (scores : List ℚ) (labels : List PFloat) : PFloat :=
  let classes := labels.map (fun l => l.geQ (1/2))
  let pos_scores := maskSelect scores classes
  let neg_scores := maskSelect scores (classes.map (fun b => !b))
  let loss0 : ℚ := 0
  let loss1 := if pos_scores.length ≠ 0 then loss0 + bceSum bce pos_scores 1 else loss0
  let loss2 := if neg_scores.length ≠ 0 then loss1 + e.bias * bceSum bce neg_scores 0 else loss1
  if scores.length = 0 then .nan else .fin (loss2 / (scores.length : ℚ))

/-- LossForRank.bi (lines 43-44): 0.5 * fine + bce_bias * coarse. -/
def LossForRank.bi (e : LossForRank) (bce : ℚ → ℚ → ℚ)
    (scores : List ℚ) (labels : List PFloat) : PFloat :=
  PFloat.add (PFloat.smul (1/2) (e.fine bce scores labels))
    (PFloat.smul e.bce_bias (e.coarse bce scores labels))

/-- LossForRank.__call__ (lines 40-41) for an engine that was actually
constructed: the only binding of loss_fn that survives construction is
self.bi (line 38). -/
def LossForRank.call (e : LossForRank) (bce : ℚ → ℚ → ℚ)
    (scores : List ℚ) (labels : List PFloat) : PFloat :=
  e.bi bce scores labels

/-- Modelled from the spec (section 4.1, Pairwise term), with the candidate
pair list as a parameter: per group, enumerate candidate index pairs, keep
those whose true-label difference exceeds the threshold and is finite,
record the predicted difference and the binarized true difference, and
average the elementwise binary cross entropy over all kept pairs of the
whole batch. -/
def pairwiseSpecWith (bce : ℚ → ℚ → ℚ) (group_size : ℕ) (minor_diff_threshold : ℚ)
    (cand : List (ℕ × ℕ)) (scores : List ℚ) (labels : List PFloat) : PFloat :=
  let groups := (view2 group_size scores).zip (view2 group_size labels)
  let kept := groups.flatMap (fun g =>
    cand.filterMap (fun p =>
      let td := (g.2.getD p.1 .nan).sub (g.2.getD p.2 .nan)
      if td.gtQ minor_diff_threshold && !td.isinf then
        some ((g.1.getD p.1 0) - (g.1.getD p.2 0), if td.gtQ 0 then (1 : ℚ) else 0)
      else none))
  bceMean bce (kept.map (fun q => q.1)) (kept.map (fun q => q.2))

/-- Modelled from the spec (claim C2 reference computation): the full ordered
Cartesian product of intra-group index pairs, self-pairs included. -/
def pairwiseSpec (bce : ℚ → ℚ → ℚ) (group_size : ℕ) (minor_diff_threshold : ℚ)
    (scores : List ℚ) (labels : List PFloat) : PFloat :=
  pairwiseSpecWith bce group_size minor_diff_threshold (pairIdx group_size) scores labels

/-- The off-diagonal candidate pairs: the full ordered product without the
self-pairs (i, i). -/
def pairIdxOffDiag (n : ℕ) : List (ℕ × ℕ) :=
  (pairIdx n).filter (fun p => p.1 ≠ p.2)

/-- Modelled from the spec (section 4.1, Pointwise term): partition the batch
by label ≥ 1/2, sum the positive-class and bias-weighted negative-class
cross entropies, divide by the batch size. -/
def pointwiseSpec (bce : ℚ → ℚ → ℚ) (negative_bias : ℚ)
    (scores : List ℚ) (labels : List PFloat) : PFloat :=
  let parts := (scores.zip labels).partition (fun q => q.2.geQ (1/2))
  let pos := parts.1.map (fun q => q.1)
  let neg := parts.2.map (fun q => q.1)
  let total := bceSum bce pos 1 + negative_bias * bceSum bce neg 0
  if scores.length = 0 then .nan else .fin (total / (scores.length : ℚ))

/-- Worker for argmaxFirst: fold over the tail keeping the best value and
the index of its first occurrence (a later element replaces the best only on
a strict improvement, so ties resolve to the earliest index). -/
def argmaxGo : ℕ → ℕ → ℕ → List ℕ → ℕ
  | _, b, _, [] => b
  | bv, b, i, y :: ys => if bv < y then argmaxGo y i (i + 1) ys else argmaxGo bv b (i + 1) ys

/-- Model of torch.argmax over a one-dimensional tensor of naturals: the
index of the first maximal element (0 on the empty list). -/
def argmaxFirst : List ℕ → ℕ
  | [] => 0
  | x :: xs => argmaxGo x 0 1 xs

/-- Lines 221-223: rel_position for one sequence is
torch.eq(input_ids, gen_score_id).long().argmax(-1), the index of the first
maximal entry of the 0/1 equality mask: the first occurrence of the sentinel
token, and 0 when the sentinel is absent (all-zero mask). -/
def relPosition (gen_score_id : ℕ) (seq : List ℕ) : ℕ :=
  argmaxFirst (seq.map (fun t => if t = gen_score_id then 1 else 0))

/-- Lines 221-227: per sequence, gather the hidden state at rel_position
(hidden_states[arange(batch_size), rel_position]) and project it through the
bias-free linear map rel_score with num_labels = 1, giving the (batch, 1)
tensor rel_logits. -/
def relLogits (gen_score_id : ℕ) (W : List ℚ) (input_ids : List (List ℕ))
    (hidden : List (List (List ℚ))) : List (List ℚ) :=
  let rel_position := input_ids.map (relPosition gen_score_id)
  let rel_hidden_states := List.zipWith (fun h p => h.getD p []) hidden rel_position
  rel_hidden_states.map (fun h => [dot W h])

/-- Python exception kinds raised by the modelled code paths. -/
inductive PyErr where
  | indexError
  | attributeError
  | typeError
deriving DecidableEq, Repr

/-- Output of the backbone call self.model(...) (line 160): outputs[0] is the
hidden-state tensor (batch, seq, hidden); outputs[1:] are pass-through
artifacts, kept opaque of type E, as are the named cache/trace members. -/
structure BackboneOut (E : Type) where
  hidden : List (List (List ℚ))
  rest : List E
  past_key_values : Option E
  hidden_states : Option E
  attentions : Option E

/-- CausalLMOutputWithPast as populated by LlamaForRear.ans (lines 210-216). -/
structure CausalOut (E : Type) where
  loss : Option PFloat
  logits : List (List (List ℚ))
  past_key_values : Option E
  hidden_states : Option E
  attentions : Option E

/-- The RearOutput dataclass (lines 79-86). -/
structure RearOutput (E : Type) where
  rel_scores : Option (List (List ℚ))
  loss : Option PFloat
  logits : Option (List (List (List ℚ)))
  past_key_values : Option E
  hidden_states : Option E
  attentions : Option E

/-- The attribute names the RearOutput dataclass declares (lines 79-86);
Python attribute access on an instance succeeds exactly for these (plus
methods, none of which is named verify_scores). -/
def RearOutput.fieldNames : List String :=
  ["rel_scores", "loss", "logits", "past_key_values", "hidden_states", "attentions"]

/-- State of LlamaForRear relevant to forward / ans / rel_eval: the mode
weight beta, the three sentinel token ids, the decision threshold, the
lm_head output width (vocabulary size), the constructed ranking engine and
the weight row of the bias-free rel_score projection (num_labels = 1). -/
structure RearModel where
  beta : Option ℚ
  gen_score_id : ℕ
  rel_token_id : ℕ
  irr_token_id : ℕ
  threshold : ℚ
  vocab_size : ℕ
  rel_eval_fn : LossForRank
  W : List ℚ

/-- Shallow model of the tensor assignments at lines 236-237 of
modeling_rankllama.py, logits[mask, rel_position, token_id] = 100, where
logits is the three-dimensional (batch, seq, vocab) tensor built at line 235
and mask is the two-dimensional boolean tensor rel_logits > threshold
(resp. rel_logits <= threshold) of shape (batch, num_labels).  PyTorch
advanced indexing expands a boolean mask into one integer index array per
mask dimension, so this subscript supplies 2 + 2 = 4 index arrays for a
tensor with only 3 dimensions (and the mask shape (batch, 1) would also have
to equal logits.shape[:2] = (batch, seq)); the assignment therefore raises
IndexError unconditionally.  The ok branch below is unreachable. -/
def maskedAssign3 (logits : List (List (List ℚ))) (mask : List (List Bool))
    (pos : List ℕ) (tok : ℕ) (v : ℚ) : Except PyErr (List (List (List ℚ))) :=
  let maskIndexArrays := 2
  let furtherIndexArrays := 2
  let tensorDims := 3
  if maskIndexArrays + furtherIndexArrays ≤ tensorDims then .ok logits
  else .error .indexError

/-- LlamaForRear.rel_eval (lines 218-246).  The scores handed to the ranking
engine are the (batch, 1) tensor rel_logits, which view(-1, psg_num) inside
the engine regroups exactly as its row-major flattening; coarse divides by
scores.shape[0], which for num_labels = 1 equals the flattened length.  When
beta is None the logits override (lines 233-237) is built: a full (batch,
seq, vocab) tensor of -100 followed by the two masked assignments. -/
def relEval (E : Type) (M : RearModel) (bce : ℚ → ℚ → ℚ) (input_ids : List (List ℕ))
    (outputs : BackboneOut E) (classes : Option (List PFloat)) :
    Except PyErr (RearOutput E) :=
  let hidden := outputs.hidden
  let rel_position := input_ids.map (relPosition M.gen_score_id)
  let rel_logits := relLogits M.gen_score_id M.W input_ids hidden
  let loss := classes.map (fun c => M.rel_eval_fn.call bce rel_logits.flatten c)
  match M.beta with
  | some _ =>
    .ok { rel_scores := some rel_logits, loss := loss, logits := none,
          past_key_values := outputs.past_key_values,
          hidden_states := outputs.hidden_states, attentions := outputs.attentions }
  | none =>
    let seq_len := (hidden.getD 0 []).length
    let base := List.replicate hidden.length
      (List.replicate seq_len (List.replicate M.vocab_size (-100 : ℚ)))
    match maskedAssign3 base (rel_logits.map (fun r => r.map (fun s => decide (M.threshold < s))))
        rel_position M.rel_token_id 100 with
    | .error e => .error e
    | .ok l1 =>
      match maskedAssign3 l1 (rel_logits.map (fun r => r.map (fun s => decide (s ≤ M.threshold))))
          rel_position M.irr_token_id 100 with
      | .error e => .error e
      | .ok l2 =>
        .ok { rel_scores := some rel_logits, loss := loss, logits := some l2,
              past_key_values := outputs.past_key_values,
              hidden_states := outputs.hidden_states, attentions := outputs.attentions }

/-- Line 200: project every hidden state through the lm_head to vocabulary
logits (the upcast to float is the identity in the exact model). -/
def genLogits (lmHead : List ℚ → List ℚ) (hidden : List (List (List ℚ))) :
    List (List (List ℚ)) :=
  hidden.map (fun seq => seq.map lmHead)

/-- Line 206: logits[:, :-1, :].view(-1, vocab_size): drop the last position
of every sequence and flatten batch-major into rows of vocabulary logits. -/
def shiftLogits (logits : List (List (List ℚ))) : List (List ℚ) :=
  (logits.map (fun seq => seq.dropLast)).flatten

/-- Line 207: labels[:, 1:].view(-1): drop the first position of every label
sequence and flatten. -/
def shiftLabels (labels : List (List ℤ)) : List ℤ :=
  (labels.map (fun seq => seq.drop 1)).flatten

/-- Lines 204-208: the generation loss starts as the scalar 0 tensor and is
replaced by the shifted cross entropy only when labels are supplied; ce is
the external CrossEntropyLoss kernel. -/
def ansLoss (ce : List (List ℚ) → List ℤ → ℚ) (logits : List (List (List ℚ)))
    (labels : Option (List (List ℤ))) : PFloat :=
  match labels with
  | none => .fin 0
  | some labs => .fin (ce (shiftLogits logits) (shiftLabels labs))

/-- LlamaForRear.ans (lines 197-216): the generation sub-result.  Its loss
member is always a present tensor (0 without labels), never None. -/
def ans (E : Type) (lmHead : List ℚ → List ℚ) (ce : List (List ℚ) → List ℤ → ℚ)
    (outputs : BackboneOut E) (labels : Option (List (List ℤ))) : CausalOut E :=
  let logits := genLogits lmHead outputs.hidden
  { loss := some (ansLoss ce logits labels), logits := logits,
    past_key_values := outputs.past_key_values,
    hidden_states := outputs.hidden_states, attentions := outputs.attentions }

/-- The value LlamaForRear.forward returns (or the exception it raises). -/
inductive FwdRet (E : Type) where
  | causal (o : CausalOut E)
  | rear (o : RearOutput E)
  | tup (loss : PFloat) (logits : List (List (List ℚ))) (rest : List E)

/-- LlamaForRear.forward (lines 139-195) after the backbone call.
When beta is None: inspect the first sequence (input_ids[0], IndexError on an
empty batch) and dispatch to ans or rel_eval.  Otherwise compute both
sub-results; line 181 adds sft_output.loss + beta * rank_output.loss, which
raises TypeError when rank_output.loss is None (classes missing).  With
return_dict false the tuple (loss, sft logits, outputs[1:]) is returned
(loss is never None there); with return_dict true the RearOutput constructor
call first evaluates rank_output.verify_scores (line 191), an attribute the
RearOutput dataclass does not declare, raising AttributeError. -/
def forward (E : Type) (M : RearModel) (lmHead : List ℚ → List ℚ)
    (ce : List (List ℚ) → List ℤ → ℚ) (bce : ℚ → ℚ → ℚ)
    (input_ids : List (List ℕ)) (outputs : BackboneOut E)
    (labels : Option (List (List ℤ))) (classes : Option (List PFloat))
    (return_dict : Bool) : Except PyErr (FwdRet E) :=
  match M.beta with
  | none =>
    match input_ids with
    | [] => .error .indexError
    | s0 :: _ =>
      if s0.contains M.rel_token_id || s0.contains M.irr_token_id then
        .ok (.causal (ans E lmHead ce outputs labels))
      else
        match relEval E M bce input_ids outputs classes with
        | .error e => .error e
        | .ok r => .ok (.rear r)
  | some b =>
    let sft := ans E lmHead ce outputs labels
    match relEval E M bce input_ids outputs classes with
    | .error e => .error e
    | .ok rank =>
      match sft.loss, rank.loss with
      | some gl, some rl =>
        let loss := PFloat.add gl (PFloat.smul b rl)
        if return_dict = false then
          .ok (.tup loss sft.logits outputs.rest)
        else
          if RearOutput.fieldNames.contains "verify_scores" then
            .ok (.rear { rel_scores := rank.rel_scores, loss := some loss,
                         logits := some sft.logits,
                         past_key_values := outputs.past_key_values,
                         hidden_states := outputs.hidden_states,
                         attentions := outputs.attentions })
          else .error .attributeError
      | _, _ => .error .typeError

lemma chunksF_length_eq {α β : Type} :
    ∀ (fuel n : ℕ) (l1 : List α) (l2 : List β), l1.length = l2.length →
      (chunksF fuel n l1).length = (chunksF fuel n l2).length := by
  intro fuel
  induction fuel with
  | zero => intro n l1 l2 _; rfl
  | succ f ih =>
    intro n l1 l2 h
    cases l1 with
    | nil => cases l2 with
      | nil => rfl
      | cons b bs => simp at h
    | cons a as => cases l2 with
      | nil => simp at h
      | cons b bs =>
        simp only [chunksF, List.length_cons]
        have hd : (List.drop n (a :: as)).length = (List.drop n (b :: bs)).length := by
          simp [List.length_drop, h]
        simpa using ih n _ _ hd

lemma view2_length_eq {α β : Type} (n : ℕ) (l1 : List α) (l2 : List β)
    (h : l1.length = l2.length) : (view2 n l1).length = (view2 n l2).length := by
  unfold view2
  rw [h]
  exact chunksF_length_eq _ n l1 l2 h

lemma maskSelect_nil_left {α : Type} (mask : List Bool) :
    maskSelect ([] : List α) mask = [] := by
  simp [maskSelect]

lemma maskSelect_append {α : Type} (as cs : List α) (bs ds : List Bool)
    (h : as.length = bs.length) :
    maskSelect (as ++ cs) (bs ++ ds) = maskSelect as bs ++ maskSelect cs ds := by
  unfold maskSelect
  rw [List.zip_append h, List.filter_append, List.map_append]

lemma maskSelect_map_map {ι α : Type} (f : ι → α) (g : ι → Bool) :
    ∀ (cand : List ι),
      maskSelect (cand.map f) (cand.map g)
        = cand.filterMap (fun i => if g i then some (f i) else none) := by
  intro cand
  induction cand with
  | nil => rfl
  | cons c cs ih =>
    simp only [List.map_cons, maskSelect, List.zip_cons_cons, List.filter_cons,
      List.filterMap_cons]
    cases hgc : g c with
    | true => simpa [maskSelect, hgc] using congrArg (List.cons (f c)) ih
    | false => simpa [maskSelect, hgc] using ih

lemma maskSelect2_of_maps {γ δ ι α : Type} (f : γ → ι → α) (g : δ → ι → Bool)
    (cand : List ι) :
    ∀ (X : List γ) (Y : List δ), X.length = Y.length →
      maskSelect2 (X.map (fun r => cand.map (f r))) (Y.map (fun r => cand.map (g r)))
        = (List.zipWith
            (fun x y => cand.filterMap (fun i => if g y i then some (f x i) else none))
            X Y).flatten := by
  intro X
  induction X with
  | nil =>
    intro Y h
    cases Y with
    | nil => rfl
    | cons b bs => simp at h
  | cons x xs ih =>
    intro Y h
    cases Y with
    | nil => simp at h
    | cons y ys =>
      simp only [List.map_cons, maskSelect2, List.flatten_cons,
        List.zipWith_cons_cons]
      rw [maskSelect_append _ _ _ _ (by simp)]
      have hxy : xs.length = ys.length := by simpa using h
      have := ih ys hxy
      simp only [maskSelect2] at this
      rw [this, maskSelect_map_map]

lemma map_if_filterMap {ι α β : Type} (g : ι → Bool) (f : ι → α) (h : α → β)
    (cand : List ι) :
    (cand.filterMap (fun i => if g i then some (f i) else none)).map h
      = cand.filterMap (fun i => if g i then some (h (f i)) else none) := by
  rw [List.map_filterMap]
  congr 1
  funext i
  cases hg : g i <;> simp [hg]

lemma zipWith_const_right {α β γ : Type} (K : β → γ) :
    ∀ (P : List α) (T : List β), P.length = T.length →
      List.zipWith (fun _ b => K b) P T = T.map K := by
  intro P
  induction P with
  | nil =>
    intro T h
    cases T with
    | nil => rfl
    | cons b bs => simp at h
  | cons x xs ih =>
    intro T h
    cases T with
    | nil => simp at h
    | cons b bs =>
      simp only [List.zipWith_cons_cons, List.map_cons]
      rw [ih bs (by simpa using h)]

lemma optionMap_if {α β : Type} (h : α → β) (c : Prop) [Decidable c] (a : α) :
    Option.map h (if c then some a else none) = if c then some (h a) else none := by
  split <;> simp

lemma fineWith_eq_specWith (e : LossForRank) (bce : ℚ → ℚ → ℚ) (cand : List (ℕ × ℕ))
    (scores : List ℚ) (labels : List PFloat) (hlen : scores.length = labels.length) :
    e.fineWith bce cand scores labels
      = pairwiseSpecWith bce e.psg_num e.ignore_minor_diff cand scores labels := by
  have hPT := view2_length_eq e.psg_num scores labels hlen
  unfold LossForRank.fineWith pairwiseSpecWith
  simp only [List.map_map, Function.comp_def, List.flatMap_def, List.zip_eq_zipWith,
    List.map_zipWith, List.map_flatten, List.map_filterMap]
  rw [maskSelect2_of_maps
      (fun x p => x.getD p.1 0 - x.getD p.2 0)
      (fun x p => ((x.getD p.1 PFloat.nan).sub (x.getD p.2 PFloat.nan)).gtQ e.ignore_minor_diff &&
        !((x.getD p.1 PFloat.nan).sub (x.getD p.2 PFloat.nan)).isinf)
      cand (view2 e.psg_num scores) (view2 e.psg_num labels) hPT,
    maskSelect2_of_maps
      (fun x p => (x.getD p.1 PFloat.nan).sub (x.getD p.2 PFloat.nan))
      (fun x p => ((x.getD p.1 PFloat.nan).sub (x.getD p.2 PFloat.nan)).gtQ e.ignore_minor_diff &&
        !((x.getD p.1 PFloat.nan).sub (x.getD p.2 PFloat.nan)).isinf)
      cand (view2 e.psg_num labels) (view2 e.psg_num labels) rfl,
    List.zipWith_same, List.map_flatten, List.map_map]
  simp only [Function.comp_def, optionMap_if, map_if_filterMap]
  rw [zipWith_const_right
      (fun y => List.filterMap
        (fun i =>
          if (((y.getD i.1 PFloat.nan).sub (y.getD i.2 PFloat.nan)).gtQ e.ignore_minor_diff &&
              !((y.getD i.1 PFloat.nan).sub (y.getD i.2 PFloat.nan)).isinf) = true then
            some (if ((y.getD i.1 PFloat.nan).sub (y.getD i.2 PFloat.nan)).gtQ 0 = true then (1 : ℚ) else 0)
          else none)
        cand)
      (view2 e.psg_num scores) (view2 e.psg_num labels) hPT]

lemma sub_self_gtQ_false (x : PFloat) (t : ℚ) (ht : 0 ≤ t) :
    (x.sub x).gtQ t = false := by
  cases x with
  | fin a => simp [PFloat.sub, PFloat.gtQ]; linarith
  | pinf => rfl
  | ninf => rfl
  | nan => rfl

lemma filterMap_restrict {ι α : Type} (q : ι → Bool) (F : ι → Option α) :
    ∀ (l : List ι), (∀ x ∈ l, q x = false → F x = none) →
      l.filterMap F = (l.filter q).filterMap F := by
  intro l
  induction l with
  | nil => intro _; rfl
  | cons a as ih =>
    intro h
    rw [List.filter_cons]
    cases hq : q a with
    | true =>
      simp only [if_pos, List.filterMap_cons]
      rw [ih (fun x hx hqx => h x (by simp [hx]) hqx)]
    | false =>
      simp only [Bool.false_eq_true, if_neg, List.filterMap_cons,
        h a (by simp) hq]
      exact ih (fun x hx hqx => h x (by simp [hx]) hqx)

lemma specWith_restrict (bce : ℚ → ℚ → ℚ) (n : ℕ) (t : ℚ) (ht : 0 ≤ t)
    (scores : List ℚ) (labels : List PFloat) :
    pairwiseSpecWith bce n t (pairIdx n) scores labels
      = pairwiseSpecWith bce n t (pairIdxOffDiag n) scores labels := by
  unfold pairwiseSpecWith pairIdxOffDiag
  have hrow : ∀ g : List ℚ × List PFloat,
      (pairIdx n).filterMap (fun p =>
        let td := (g.2.getD p.1 PFloat.nan).sub (g.2.getD p.2 PFloat.nan)
        if td.gtQ t && !td.isinf then
          some ((g.1.getD p.1 0) - (g.1.getD p.2 0), if td.gtQ 0 then (1 : ℚ) else 0)
        else none)
      = ((pairIdx n).filter (fun p => p.1 ≠ p.2)).filterMap (fun p =>
        let td := (g.2.getD p.1 PFloat.nan).sub (g.2.getD p.2 PFloat.nan)
        if td.gtQ t && !td.isinf then
          some ((g.1.getD p.1 0) - (g.1.getD p.2 0), if td.gtQ 0 then (1 : ℚ) else 0)
        else none) := by
    intro g
    apply filterMap_restrict
    intro p _ hp
    have hpp : p.1 = p.2 := by
      by_contra hne
      simp [hne] at hp
    rw [hpp]
    simp [sub_self_gtQ_false _ _ ht]
  simp only [hrow]

lemma maskSelect_zip_pred {α β : Type} (g : β → Bool) :
    ∀ (xs : List α) (ys : List β),
      maskSelect xs (ys.map g)
        = ((xs.zip ys).filter (fun q => g q.2)).map (fun q => q.1) := by
  intro xs
  induction xs with
  | nil => intro ys; simp [maskSelect]
  | cons x xs ih =>
    intro ys
    cases ys with
    | nil => simp [maskSelect]
    | cons y ys =>
      simp only [List.map_cons, maskSelect, List.zip_cons_cons, List.filter_cons]
      cases hg : g y with
      | true =>
        simp only [if_pos, List.map_cons]
        have := ih ys
        simp only [maskSelect] at this
        simp [this]
      | false =>
        have := ih ys
        simp only [maskSelect] at this
        simp [hg, this]

lemma bceSum_nil (bce : ℚ → ℚ → ℚ) (t : ℚ) : bceSum bce [] t = 0 := by
  simp [bceSum]

lemma coarse_eq_pointwiseSpec (e : LossForRank) (bce : ℚ → ℚ → ℚ)
    (scores : List ℚ) (labels : List PFloat) :
    e.coarse bce scores labels = pointwiseSpec bce e.bias scores labels := by
  unfold LossForRank.coarse pointwiseSpec
  rw [List.partition_eq_filter_filter]
  dsimp only
  rw [maskSelect_zip_pred (fun l => l.geQ (1/2)) scores labels]
  rw [List.map_map]
  have hneg : (fun l => !PFloat.geQ l (1/2)) = (fun b => !b) ∘ (fun l => PFloat.geQ l (1/2)) := rfl
  rw [show labels.map ((fun b => !b) ∘ fun l => PFloat.geQ l (1/2))
        = labels.map (fun l => !PFloat.geQ l (1/2)) from rfl]
  rw [maskSelect_zip_pred (fun l => !PFloat.geQ l (1/2)) scores labels]
  have hnotc : ((scores.zip labels).filter (fun q => !PFloat.geQ q.2 (1/2)))
      = ((scores.zip labels).filter (not ∘ fun q => PFloat.geQ q.2 (1/2))) := rfl
  rw [hnotc]
  set pos := ((scores.zip labels).filter (fun q => PFloat.geQ q.2 (1/2))).map (fun q => q.1) with hpos
  set neg := ((scores.zip labels).filter (not ∘ fun q => PFloat.geQ q.2 (1/2))).map (fun q => q.1) with hneg2
  have h1 : (if pos.length ≠ 0 then (0 : ℚ) + bceSum bce pos 1 else 0) = bceSum bce pos 1 := by
    by_cases hp : pos.length = 0
    · rw [if_neg (by simp [hp])]
      rw [List.length_eq_zero.mp hp, bceSum_nil]
    · rw [if_pos hp, zero_add]
  rw [h1]
  have h2 : (if neg.length ≠ 0 then bceSum bce pos 1 + e.bias * bceSum bce neg 0
        else bceSum bce pos 1) = bceSum bce pos 1 + e.bias * bceSum bce neg 0 := by
    by_cases hn : neg.length = 0
    · rw [if_neg (by simp [hn])]
      rw [List.length_eq_zero.mp hn, bceSum_nil, mul_zero, add_zero]
    · rw [if_pos hn]
  rw [h2]

lemma maskSelect_all_false {α : Type} (xs : List α) (mask : List Bool)
    (h : ∀ b ∈ mask, b = false) : maskSelect xs mask = [] := by
  unfold maskSelect
  have hf : (xs.zip mask).filter (fun p => p.2) = [] := by
    apply List.filter_eq_nil_iff.mpr
    intro p hp
    have hb := (List.of_mem_zip hp).2
    simp [h p.2 hb]
  rw [hf, List.map_nil]

lemma fine_nan_of_all_filtered (e : LossForRank) (bce : ℚ → ℚ → ℚ)
    (scores : List ℚ) (labels : List PFloat)
    (h : ∀ g ∈ view2 e.psg_num labels, ∀ p ∈ pairIdx e.psg_num,
        ((g.getD p.1 PFloat.nan).sub (g.getD p.2 PFloat.nan)).gtQ e.ignore_minor_diff = false) :
    e.fine bce scores labels = PFloat.nan := by
  unfold LossForRank.fine LossForRank.fineWith
  dsimp only
  simp only [List.map_map, Function.comp_def]
  rw [maskSelect2, maskSelect_all_false]
  · rfl
  · intro b hb
    simp only [List.mem_flatten, List.mem_map] at hb
    obtain ⟨l, ⟨row0, hrow0, hl⟩, hbl⟩ := hb
    subst hl
    simp only [List.mem_map] at hbl
    obtain ⟨p, hp, hpb⟩ := hbl
    subst hpb
    rw [h row0 hrow0 p hp]
    rfl

lemma call_nan_of_all_filtered (e : LossForRank) (bce : ℚ → ℚ → ℚ)
    (scores : List ℚ) (labels : List PFloat)
    (h : ∀ g ∈ view2 e.psg_num labels, ∀ p ∈ pairIdx e.psg_num,
        ((g.getD p.1 PFloat.nan).sub (g.getD p.2 PFloat.nan)).gtQ e.ignore_minor_diff = false) :
    e.call bce scores labels = PFloat.nan := by
  unfold LossForRank.call LossForRank.bi
  rw [fine_nan_of_all_filtered e bce scores labels h]
  rfl

lemma argmaxGo_no_improve :
    ∀ (l : List ℕ) (bv b i : ℕ), (∀ y ∈ l, y ≤ bv) → argmaxGo bv b i l = b := by
  intro l
  induction l with
  | nil => intro bv b i _; rfl
  | cons y ys ih =>
    intro bv b i h
    have hy : y ≤ bv := h y (by simp)
    simp only [argmaxGo]
    rw [if_neg (by omega)]
    exact ih bv b (i + 1) (fun z hz => h z (by simp [hz]))

lemma argmaxGo_zero_find :
    ∀ (l : List ℕ) (b i : ℕ), (∀ y ∈ l, y ≤ 1) → 1 ∈ l →
      argmaxGo 0 b i l = i + l.findIdx (fun y => y = 1) := by
  intro l
  induction l with
  | nil => intro b i _ hmem; simp at hmem
  | cons y ys ih =>
    intro b i hle hmem
    cases y with
    | zero =>
      simp only [argmaxGo]
      rw [if_neg (by omega)]
      have hys : 1 ∈ ys := by
        rcases List.mem_cons.mp hmem with h0 | h0
        · omega
        · exact h0
      rw [ih b (i + 1) (fun z hz => hle z (by simp [hz])) hys]
      rw [List.findIdx_cons]
      simp
      omega
    | succ m =>
      have h1 : m + 1 ≤ 1 := hle (m + 1) (by simp)
      have hm : m = 0 := by omega
      subst hm
      simp only [argmaxGo]
      rw [if_pos (by omega)]
      rw [argmaxGo_no_improve ys 1 i (i + 1) (fun z hz => hle z (by simp [hz]))]
      rw [List.findIdx_cons]
      simp

lemma argmaxFirst_all_zero (l : List ℕ) (h : ∀ y ∈ l, y = 0) : argmaxFirst l = 0 := by
  cases l with
  | nil => rfl
  | cons x xs =>
    simp only [argmaxFirst]
    apply argmaxGo_no_improve
    intro y hy
    rw [h y (by simp [hy]), h x (by simp)]

lemma relPosition_of_not_mem (gid : ℕ) (seq : List ℕ) (h : gid ∉ seq) :
    relPosition gid seq = 0 := by
  unfold relPosition
  apply argmaxFirst_all_zero
  intro y hy
  simp only [List.mem_map] at hy
  rcases hy with ⟨t, ht, rfl⟩
  rw [if_neg]
  intro he
  exact h (he ▸ ht)

lemma findIdx_map_eq {α β : Type} (p : β → Bool) (f : α → β) :
    ∀ l : List α, (l.map f).findIdx p = l.findIdx (fun x => p (f x)) := by
  intro l
  induction l with
  | nil => rfl
  | cons a as ih => simp [List.findIdx_cons, ih]

lemma relPosition_of_mem (gid : ℕ) (seq : List ℕ) (h : gid ∈ seq) :
    relPosition gid seq = seq.findIdx (fun t => t = gid) := by
  unfold relPosition
  cases seq with
  | nil => simp at h
  | cons t ts =>
    simp only [List.map_cons, argmaxFirst]
    by_cases ht : t = gid
    · rw [if_pos ht]
      rw [argmaxGo_no_improve (ts.map (fun t => if t = gid then 1 else 0)) 1 0 1]
      · rw [List.findIdx_cons]
        simp [ht]
      · intro y hy
        simp only [List.mem_map] at hy
        rcases hy with ⟨u, _, rfl⟩
        split <;> omega
    · rw [if_neg ht]
      have h2 : gid ∈ ts := by
        rcases List.mem_cons.mp h with h0 | h0
        · exact absurd h0.symm ht
        · exact h0
      have h3 : (1 : ℕ) ∈ ts.map (fun u => if u = gid then 1 else 0) := by
        simp only [List.mem_map]
        exact ⟨gid, h2, by simp⟩
      rw [argmaxGo_zero_find _ 0 1 ?hle h3]
      · rw [findIdx_map_eq]
        rw [List.findIdx_cons]
        have hpe : (fun x => decide ((if x = gid then (1 : ℕ) else 0) = 1))
            = (fun x => decide (x = gid)) := by
          funext x
          by_cases hx : x = gid <;> simp [hx]
        rw [hpe]
        simp [ht]
        omega
      case hle =>
        intro y hy
        simp only [List.mem_map] at hy
        rcases hy with ⟨u, _, rfl⟩
        split <;> omega

/-- C1: evaluate returns only the Pointwise term under warm-up and
0.5 * Pairwise + coarse_weight * Pointwise otherwise.  The code disagrees on
the warm-up half: LossForRank.__init__ with is_warm_up=True executes
self.loss_fn = self.bce, and the class defines no attribute bce, so
construction raises AttributeError (first conjunct: no warm-up engine
exists).  Construction with is_warm_up=False succeeds (second conjunct) and
its evaluate is exactly 0.5 * fine + bce_bias * coarse (third conjunct). -/
theorem c1_warm_up_binds_missing_method :
    (∀ (bias : ℚ) (psg_num : ℕ) (ignore_minor_diff bce_bias : ℚ),
      LossForRank.make true bias psg_num ignore_minor_diff bce_bias = none)
    ∧ (∀ (bias : ℚ) (psg_num : ℕ) (ignore_minor_diff bce_bias : ℚ),
      LossForRank.make false bias psg_num ignore_minor_diff bce_bias
        = some { bias := bias, psg_num := psg_num,
                 ignore_minor_diff := ignore_minor_diff, bce_bias := bce_bias })
    ∧ (∀ (e : LossForRank) (bce : ℚ → ℚ → ℚ) (scores : List ℚ) (labels : List PFloat),
      e.call bce scores labels
        = PFloat.add (PFloat.smul (1/2) (e.fine bce scores labels))
            (PFloat.smul e.bce_bias (e.coarse bce scores labels))) :=
  ⟨fun _ _ _ _ => rfl, fun _ _ _ _ => rfl, fun _ _ _ _ => rfl⟩

/-- C2: for every batch of equal length divisible by the group size, the
Pairwise term LossForRank.fine equals the specification's reference
computation (grouping, full ordered pair product with self-pairs, threshold
and finiteness filter, binarization, batch-wide mean of the elementwise
binary cross entropy). -/
theorem c2_fine_matches_reference (e : LossForRank) (bce : ℚ → ℚ → ℚ)
    (scores : List ℚ) (labels : List PFloat)
    (hlen : scores.length = labels.length) (hdvd : e.psg_num ∣ scores.length) :
    e.fine bce scores labels
      = pairwiseSpec bce e.psg_num e.ignore_minor_diff scores labels :=
  fineWith_eq_specWith e bce (pairIdx e.psg_num) scores labels hlen

/-- Witness for C2 at a concrete two-element batch with group size 2. -/
theorem c2_witness :
    (([1, 0] : List ℚ).length = ([PFloat.fin 1, PFloat.fin 0] : List PFloat).length)
    ∧ ((2 : ℕ) ∣ ([1, 0] : List ℚ).length)
    ∧ LossForRank.fine { bias := 1, psg_num := 2, ignore_minor_diff := 0, bce_bias := 1 }
        (fun x y => x * y) [1, 0] [PFloat.fin 1, PFloat.fin 0]
      = pairwiseSpec (fun x y => x * y) 2 0 [1, 0] [PFloat.fin 1, PFloat.fin 0] :=
  ⟨rfl, ⟨1, rfl⟩,
    c2_fine_matches_reference { bias := 1, psg_num := 2, ignore_minor_diff := 0, bce_bias := 1 }
      (fun x y => x * y) [1, 0] [PFloat.fin 1, PFloat.fin 0] rfl ⟨1, rfl⟩⟩

/-- C3: for every batch, the Pointwise term LossForRank.coarse equals the
specification's reference computation (partition by label threshold 1/2,
sum-reduced cross entropies with the negative class weighted by
negative_bias, division by the batch size; an empty subset contributes
zero without error). -/
theorem c3_coarse_matches_reference (e : LossForRank) (bce : ℚ → ℚ → ℚ)
    (scores : List ℚ) (labels : List PFloat)
    (hlen : scores.length = labels.length) :
    e.coarse bce scores labels = pointwiseSpec bce e.bias scores labels :=
  coarse_eq_pointwiseSpec e bce scores labels

/-- Witness for C3 at a concrete batch with one positive and one negative. -/
theorem c3_witness :
    (([2, 1] : List ℚ).length = ([PFloat.fin 1, PFloat.fin 0] : List PFloat).length)
    ∧ LossForRank.coarse { bias := 2, psg_num := 4, ignore_minor_diff := 0, bce_bias := 1 }
        (fun x y => x + y) [2, 1] [PFloat.fin 1, PFloat.fin 0]
      = pointwiseSpec (fun x y => x + y) 2 [2, 1] [PFloat.fin 1, PFloat.fin 0] :=
  ⟨rfl,
    c3_coarse_matches_reference { bias := 2, psg_num := 4, ignore_minor_diff := 0, bce_bias := 1 }
      (fun x y => x + y) [2, 1] [PFloat.fin 1, PFloat.fin 0] rfl⟩

/-- C7 counterexample: on the batch scores [0,0], labels [0,0] with group
size 2 and threshold 0 every intra-group true-label gap is 0 ≤ 0, so every
pair is filtered out; the Pairwise term is then the mean over zero elements,
NaN, not 0, and the total loss is NaN, whereas a zero pairwise contribution
would have produced the finite value 1/2 + coarse-part = 1. -/
theorem c7_counterexample :
    LossForRank.fine { bias := 1, psg_num := 2, ignore_minor_diff := 0, bce_bias := 1 }
        (fun _ _ => 1) [0, 0] [PFloat.fin 0, PFloat.fin 0] = PFloat.nan
    ∧ LossForRank.call { bias := 1, psg_num := 2, ignore_minor_diff := 0, bce_bias := 1 }
        (fun _ _ => 1) [0, 0] [PFloat.fin 0, PFloat.fin 0] = PFloat.nan
    ∧ PFloat.add (PFloat.smul (1/2) (PFloat.fin 0))
        (PFloat.smul (1 : ℚ)
          (LossForRank.coarse { bias := 1, psg_num := 2, ignore_minor_diff := 0, bce_bias := 1 }
            (fun _ _ => 1) [0, 0] [PFloat.fin 0, PFloat.fin 0]))
      = PFloat.fin 1
    ∧ PFloat.nan ≠ PFloat.fin 1 := by
  have hfine : LossForRank.fine { bias := 1, psg_num := 2, ignore_minor_diff := 0, bce_bias := 1 }
      (fun _ _ => 1) [0, 0] [PFloat.fin 0, PFloat.fin 0] = PFloat.nan := by
    apply fine_nan_of_all_filtered
    intro g hg p hp
    have hg2 : g ∈ [[PFloat.fin 0, PFloat.fin 0]] := hg
    have hp2 : p ∈ [((0 : ℕ), (0 : ℕ)), (0, 1), (1, 0), (1, 1)] := hp
    simp only [List.mem_singleton] at hg2
    subst hg2
    simp only [List.mem_cons, List.mem_singleton, List.not_mem_nil, or_false] at hp2
    rcases hp2 with rfl | rfl | rfl | rfl <;>
      simp [PFloat.sub, PFloat.gtQ]
  refine ⟨hfine, ?h2, ?h3, by simp⟩
  case h2 =>
    unfold LossForRank.call LossForRank.bi
    rw [hfine]
    rfl
  case h3 =>
    norm_num [LossForRank.coarse, maskSelect, bceSum, PFloat.geQ, PFloat.smul,
      PFloat.add]

/-- C7 (amended): for every batch in which no intra-group true-label
difference passes the threshold comparison (so the filter removes all
pairs), the Pairwise term evaluates to NaN (the mean over zero kept
elements), the NaN propagates to the combined loss, and evaluation is total:
no exception is raised. -/
theorem c7_all_filtered_gives_nan (e : LossForRank) (bce : ℚ → ℚ → ℚ)
    (scores : List ℚ) (labels : List PFloat)
    (h : ∀ g ∈ view2 e.psg_num labels, ∀ p ∈ pairIdx e.psg_num,
        ((g.getD p.1 PFloat.nan).sub (g.getD p.2 PFloat.nan)).gtQ e.ignore_minor_diff = false) :
    e.fine bce scores labels = PFloat.nan ∧ e.call bce scores labels = PFloat.nan :=
  ⟨fine_nan_of_all_filtered e bce scores labels h,
   call_nan_of_all_filtered e bce scores labels h⟩

/-- Witness for C7 (amended) at the all-tied batch. -/
theorem c7_witness :
    LossForRank.fine { bias := 1, psg_num := 2, ignore_minor_diff := 0, bce_bias := 1 }
        (fun x y => x * y) [0, 0] [PFloat.fin 0, PFloat.fin 0] = PFloat.nan
    ∧ LossForRank.call { bias := 1, psg_num := 2, ignore_minor_diff := 0, bce_bias := 1 }
        (fun x y => x * y) [0, 0] [PFloat.fin 0, PFloat.fin 0] = PFloat.nan :=
  c7_all_filtered_gives_nan
    { bias := 1, psg_num := 2, ignore_minor_diff := 0, bce_bias := 1 }
    (fun x y => x * y) [0, 0] [PFloat.fin 0, PFloat.fin 0]
    (by
      intro g hg p hp
      have hg2 : g ∈ [[PFloat.fin 0, PFloat.fin 0]] := hg
      have hp2 : p ∈ [((0 : ℕ), (0 : ℕ)), (0, 1), (1, 0), (1, 1)] := hp
      simp only [List.mem_singleton] at hg2
      subst hg2
      simp only [List.mem_cons, List.mem_singleton, List.not_mem_nil, or_false] at hp2
      rcases hp2 with rfl | rfl | rfl | rfl <;>
        simp [PFloat.sub, PFloat.gtQ])

/-- C10: for every batch and every nonnegative threshold the self-pairs
(i, i) enumerated by the Cartesian product never pass the filter (the
true-label difference of a value with itself is 0 for finite labels and NaN
for infinite or NaN labels, neither of which exceeds a nonnegative
threshold), so the Pairwise term equals the same computation restricted to
the off-diagonal ordered pairs. -/
theorem c10_self_pairs_never_pass (e : LossForRank) (bce : ℚ → ℚ → ℚ)
    (scores : List ℚ) (labels : List PFloat)
    (hth : 0 ≤ e.ignore_minor_diff) (hlen : scores.length = labels.length)
    (hdvd : e.psg_num ∣ scores.length) :
    (∀ x : PFloat, (x.sub x).gtQ e.ignore_minor_diff = false)
    ∧ e.fine bce scores labels
        = e.fineWith bce (pairIdxOffDiag e.psg_num) scores labels := by
  refine ⟨fun x => sub_self_gtQ_false x _ hth, ?_⟩
  calc e.fine bce scores labels
      = pairwiseSpecWith bce e.psg_num e.ignore_minor_diff (pairIdx e.psg_num) scores labels :=
        fineWith_eq_specWith e bce (pairIdx e.psg_num) scores labels hlen
    _ = pairwiseSpecWith bce e.psg_num e.ignore_minor_diff (pairIdxOffDiag e.psg_num) scores labels :=
        specWith_restrict bce e.psg_num e.ignore_minor_diff hth scores labels
    _ = e.fineWith bce (pairIdxOffDiag e.psg_num) scores labels :=
        (fineWith_eq_specWith e bce (pairIdxOffDiag e.psg_num) scores labels hlen).symm

/-- Witness for C10 at a concrete batch. -/
theorem c10_witness :
    ((0 : ℚ) ≤ 0)
    ∧ (([2, 1] : List ℚ).length = ([PFloat.fin 1, PFloat.fin 0] : List PFloat).length)
    ∧ ((2 : ℕ) ∣ ([2, 1] : List ℚ).length)
    ∧ (∀ x : PFloat, (x.sub x).gtQ 0 = false)
    ∧ LossForRank.fine { bias := 1, psg_num := 2, ignore_minor_diff := 0, bce_bias := 1 }
        (fun x y => x + y) [2, 1] [PFloat.fin 1, PFloat.fin 0]
      = LossForRank.fineWith { bias := 1, psg_num := 2, ignore_minor_diff := 0, bce_bias := 1 }
          (fun x y => x + y) (pairIdxOffDiag 2) [2, 1] [PFloat.fin 1, PFloat.fin 0] := by
  have h := c10_self_pairs_never_pass
    { bias := 1, psg_num := 2, ignore_minor_diff := 0, bce_bias := 1 }
    (fun x y => x + y) [2, 1] [PFloat.fin 1, PFloat.fin 0] le_rfl rfl ⟨1, rfl⟩
  exact ⟨le_rfl, rfl, ⟨1, rfl⟩, h.1, h.2⟩

/-- C6: for every batch, the relevance score of each sequence is the
bias-free linear projection (dot with the learned weight row) of the hidden
state at the sentinel position computed for that sequence; the sentinel
position is the first occurrence of the generation-score token when the
token is present, and silently defaults to index 0 when it is absent, with
no error raised. -/
theorem c6_rel_score_extraction (gid : ℕ) (W : List ℚ) (input_ids : List (List ℕ))
    (hidden : List (List (List ℚ))) (b : ℕ)
    (hB : hidden.length = input_ids.length) (hb : b < input_ids.length) :
    (relLogits gid W input_ids hidden).getD b []
      = [dot W ((hidden.getD b []).getD (relPosition gid (input_ids.getD b [])) [])]
    ∧ (gid ∈ input_ids.getD b [] →
        (input_ids.getD b []).getD (relPosition gid (input_ids.getD b [])) 0 = gid
        ∧ ∀ j, j < relPosition gid (input_ids.getD b []) →
            (input_ids.getD b []).getD j 0 ≠ gid)
    ∧ (gid ∉ input_ids.getD b [] → relPosition gid (input_ids.getD b []) = 0) := by
  refine ⟨?hval, ?hfirst, fun hnm => relPosition_of_not_mem gid _ hnm⟩
  case hval =>
    unfold relLogits
    dsimp only
    have hbh : b < hidden.length := by omega
    have hbm : b < ((List.zipWith (fun h p => h.getD p []) hidden
        (input_ids.map (relPosition gid))).map (fun h => [dot W h])).length := by
      rw [List.length_map, List.length_zipWith, List.length_map, hB]
      simpa using hb
    rw [List.getD_eq_getElem _ _ hbm]
    rw [List.getElem_map]
    rw [List.getElem_zipWith]
    rw [List.getElem_map]
    rw [List.getD_eq_getElem _ _ hbh, List.getD_eq_getElem _ _ hb]
  case hfirst =>
    intro hmem
    rw [relPosition_of_mem gid _ hmem]
    have hlt : (input_ids.getD b []).findIdx (fun t => t = gid)
        < (input_ids.getD b []).length :=
      List.findIdx_lt_length_of_exists ⟨gid, hmem, by simp⟩
    constructor
    · rw [List.getD_eq_getElem _ _ hlt]
      have := @List.findIdx_getElem _ (fun t => decide (t = gid)) (input_ids.getD b []) hlt
      simpa using this
    · intro j hj
      have hjl : j < (input_ids.getD b []).length := by omega
      rw [List.getD_eq_getElem _ _ hjl]
      have := List.not_of_lt_findIdx hj
      simpa using this

/-- Witness for C6: sentinel token 5 occurs first at position 1 of the
sequence [9, 5, 5]; the score is read from the hidden state at position 1. -/
theorem c6_witness :
    (([[[1], [3], [4]]] : List (List (List ℚ))).length = ([[9, 5, 5]] : List (List ℕ)).length)
    ∧ (0 < ([[9, 5, 5]] : List (List ℕ)).length)
    ∧ ((relLogits 5 [2] [[9, 5, 5]] [[[1], [3], [4]]]).getD 0 []
        = [dot [2] ((([[[1], [3], [4]]] : List (List (List ℚ))).getD 0 []).getD
            (relPosition 5 (([[9, 5, 5]] : List (List ℕ)).getD 0 [])) [])]
      ∧ ((5 : ℕ) ∈ ([[9, 5, 5]] : List (List ℕ)).getD 0 [] →
          (([[9, 5, 5]] : List (List ℕ)).getD 0 []).getD
              (relPosition 5 (([[9, 5, 5]] : List (List ℕ)).getD 0 [])) 0 = 5
          ∧ ∀ j, j < relPosition 5 (([[9, 5, 5]] : List (List ℕ)).getD 0 []) →
              (([[9, 5, 5]] : List (List ℕ)).getD 0 []).getD j 0 ≠ 5)
      ∧ ((5 : ℕ) ∉ ([[9, 5, 5]] : List (List ℕ)).getD 0 [] →
          relPosition 5 (([[9, 5, 5]] : List (List ℕ)).getD 0 []) = 0)) :=
  ⟨rfl, by decide, c6_rel_score_extraction 5 [2] [[9, 5, 5]] [[[1], [3], [4]]] 0 rfl (by decide)⟩

/-- C5: the claim describes the intended contents of the override logits
tensor in score-only mode (all entries -100 except a +100 at the sentinel
position of the relevant or irrelevant token, chosen by comparing the score
with the threshold).  The code instead raises unconditionally: the masked
assignment at line 236 indexes the three-dimensional logits tensor with a
two-dimensional boolean mask (rel_logits > threshold, shape (batch, 1))
plus two further indices, which PyTorch advanced indexing rejects with
IndexError, so rel_eval in beta-None mode never returns. -/
theorem c5_override_assignment_raises (gid rel irr : ℕ) (thr : ℚ) (V : ℕ)
    (eng : LossForRank) (W : List ℚ) (E : Type) (bce : ℚ → ℚ → ℚ)
    (input_ids : List (List ℕ)) (outputs : BackboneOut E)
    (classes : Option (List PFloat)) :
    relEval E { beta := none, gen_score_id := gid, rel_token_id := rel,
                irr_token_id := irr, threshold := thr, vocab_size := V,
                rel_eval_fn := eng, W := W } bce input_ids outputs classes
      = .error .indexError := rfl

/-- C9: in combined mode (beta a fixed weight) with return_dict true and
relevance labels supplied, building the returned RearOutput reads the
attribute verify_scores from the relevance sub-result, but the RearOutput
dataclass declares no verify_scores field (second conjunct), so forward
raises AttributeError instead of returning (first conjunct). -/
theorem c9_verify_scores_attribute_error (b : ℚ) (gid rel irr : ℕ) (thr : ℚ)
    (V : ℕ) (eng : LossForRank) (W : List ℚ) (E : Type)
    (lmHead : List ℚ → List ℚ) (ce : List (List ℚ) → List ℤ → ℚ)
    (bce : ℚ → ℚ → ℚ) (input_ids : List (List ℕ)) (outputs : BackboneOut E)
    (labels : Option (List (List ℤ))) (cls : List PFloat) :
    forward E { beta := some b, gen_score_id := gid, rel_token_id := rel,
                irr_token_id := irr, threshold := thr, vocab_size := V,
                rel_eval_fn := eng, W := W }
        lmHead ce bce input_ids outputs labels (some cls) true
      = .error .attributeError
    ∧ RearOutput.fieldNames.contains "verify_scores" = false :=
  ⟨rfl, rfl⟩

/-- C4: in combined mode both sub-results are computed unconditionally and
the loss combined at line 181 is generation_loss + beta * relevance_loss
(visible in the tuple returned with return_dict false, first conjunct); but
the tuple output carries only the loss, the generation logits and the
backbone pass-throughs, not the relevance scores, and the return_dict true
path, the one that would carry logits and relevance scores side by side,
raises AttributeError on the undeclared verify_scores attribute (second
conjunct), so no forward call returns an output carrying both. -/
theorem c4_combined_loss_and_outputs (b : ℚ) (gid rel irr : ℕ) (thr : ℚ)
    (V : ℕ) (eng : LossForRank) (W : List ℚ) (E : Type)
    (lmHead : List ℚ → List ℚ) (ce : List (List ℚ) → List ℤ → ℚ)
    (bce : ℚ → ℚ → ℚ) (input_ids : List (List ℕ)) (outputs : BackboneOut E)
    (labels : Option (List (List ℤ))) (cls : List PFloat) :
    forward E { beta := some b, gen_score_id := gid, rel_token_id := rel,
                irr_token_id := irr, threshold := thr, vocab_size := V,
                rel_eval_fn := eng, W := W }
        lmHead ce bce input_ids outputs labels (some cls) false
      = .ok (.tup
          (PFloat.add (ansLoss ce (genLogits lmHead outputs.hidden) labels)
            (PFloat.smul b
              (eng.call bce (relLogits gid W input_ids outputs.hidden).flatten cls)))
          (genLogits lmHead outputs.hidden) outputs.rest)
    ∧ forward E { beta := some b, gen_score_id := gid, rel_token_id := rel,
                  irr_token_id := irr, threshold := thr, vocab_size := V,
                  rel_eval_fn := eng, W := W }
        lmHead ce bce input_ids outputs labels (some cls) true
      = .error .attributeError :=
  ⟨rfl, rfl⟩

/-- C8 counterexample: a forward call in generation mode (beta None, first
sequence containing the relevant-token id 1) with no labels supplied
returns a ModelOutput whose loss field is the present scalar 0, not None. -/
theorem c8_counterexample :
    forward Unit { beta := none, gen_score_id := 3, rel_token_id := 1,
                   irr_token_id := 2, threshold := 0, vocab_size := 1,
                   rel_eval_fn := { bias := 1, psg_num := 2, ignore_minor_diff := 0, bce_bias := 1 },
                   W := [] }
        (fun _ => []) (fun _ _ => 0) (fun _ _ => 0) [[1]]
        { hidden := [], rest := [], past_key_values := none,
          hidden_states := none, attentions := none } none none true
      = .ok (.causal { loss := some (PFloat.fin 0), logits := [],
                       past_key_values := none, hidden_states := none,
                       attentions := none })
    ∧ some (PFloat.fin 0) ≠ (none : Option PFloat) :=
  ⟨rfl, by simp⟩

/-- C8 (amended): the loss of the returned output is not None when no
labels are supplied; on the generation path (beta None, a relevance
sentinel in the first sequence) it is the present scalar 0.  (The loss of
the relevance sub-result is None exactly when classes is None, but in beta
None mode that path raises before returning, see C5.) -/
theorem c8_no_labels_loss_zero (gid rel irr : ℕ) (thr : ℚ) (V : ℕ)
    (eng : LossForRank) (W : List ℚ) (E : Type)
    (lmHead : List ℚ → List ℚ) (ce : List (List ℚ) → List ℤ → ℚ)
    (bce : ℚ → ℚ → ℚ) (s0 : List ℕ) (restIds : List (List ℕ))
    (outputs : BackboneOut E) (classes : Option (List PFloat))
    (return_dict : Bool)
    (h : (s0.contains rel || s0.contains irr) = true) :
    forward E { beta := none, gen_score_id := gid, rel_token_id := rel,
                irr_token_id := irr, threshold := thr, vocab_size := V,
                rel_eval_fn := eng, W := W }
        lmHead ce bce (s0 :: restIds) outputs none classes return_dict
      = .ok (.causal { loss := some (PFloat.fin 0),
                       logits := genLogits lmHead outputs.hidden,
                       past_key_values := outputs.past_key_values,
                       hidden_states := outputs.hidden_states,
                       attentions := outputs.attentions }) := by
  unfold forward
  simp only [h]
  rfl

/-- Witness for C8 (amended) at a concrete generation-mode call. -/
theorem c8_witness :
    ((([1] : List ℕ).contains 1 || ([1] : List ℕ).contains 2) = true)
    ∧ forward Unit { beta := none, gen_score_id := 3, rel_token_id := 1,
                     irr_token_id := 2, threshold := 0, vocab_size := 1,
                     rel_eval_fn := { bias := 1, psg_num := 2, ignore_minor_diff := 0, bce_bias := 1 },
                     W := [] }
          (fun _ => []) (fun _ _ => 0) (fun _ _ => 0) [[1]]
          { hidden := [], rest := [], past_key_values := none,
            hidden_states := none, attentions := none } none none false
        = .ok (.causal { loss := some (PFloat.fin 0), logits := [],
                         past_key_values := none, hidden_states := none,
                         attentions := none }) :=
  ⟨by decide,
    c8_no_labels_loss_zero 3 1 2 0 1
      { bias := 1, psg_num := 2, ignore_minor_diff := 0, bce_bias := 1 } [] Unit
      (fun _ => []) (fun _ _ => 0) (fun _ _ => 0) [1] []
      { hidden := [], rest := [], past_key_values := none,
        hidden_states := none, attentions := none } none false (by decide)⟩
